import Mathlib

/-!
Shallow embedding of the k-armed bandit environments of
src/k_armed_bandits/bandits.py together with the injectable randomizer
protocol of src/utils/randomizer.py.

Modelling decisions:
* Python floats are idealised as rationals; all constants appearing in the
  code (0.001, 1.0, 0.2, ...) are exact decimals, so every comparison the
  code performs is preserved exactly.
* The randomizer protocol (RandomizerI / UniformRandomizerI /
  NormalRandomizerI) is modelled as a deterministic state machine: a stream
  of scalar draw values, a stream of vector draw results, cursors into both,
  a log of every distribution call made (mirroring the spy randomizers of
  the test suite), and a log of the seeds it was initialised with.  The
  Python methods uniform(low, high, size) / normal(loc, scale, size) return
  a scalar when size is None and a list when size is given; the two shapes
  are split into the Scalar and Vec operations below, each recording the
  exact argument triple it was called with.
* Mutation of self is replaced by explicit state passing: every operation
  returns the updated environment.  reset, which returns None in Python,
  returns the updated environment here.
* Python class inheritance is modelled by making the base-class state
  Bandits polymorphic in the configuration type Cfg (the subclass narrows
  config) and in Latent, the extra per-arm state the subclass adds
  (probabilities for the fixed-value variant, rewards for the Gaussian
  one).  The abstract method get_reward becomes an explicit hook argument
  of step, modelling dynamic dispatch.
* Python list indexing probabilities[action] (which accepts negative
  indices counting from the end and raises IndexError out of range) is
  modelled by pyIndex, returning none exactly when Python raises.
-/

/-- One logged call to a distribution method of the randomizer:
the exact arguments of uniform(low, high, size) or normal(loc, scale, size),
with size = none for the scalar shape. -/
inductive RngCall where
  | uniform (low high : ℚ) (size : Option ℕ)
  | normal (loc scale : ℚ) (size : Option ℕ)
  deriving DecidableEq

/-- The randomizer state: deterministic streams of scalar and vector draw
results, cursors, the log of distribution calls, and the log of seeds the
initializer was invoked with (mirroring RandomizerSpy.calls in the tests). -/
structure Rng where
  scalarStream : ℕ → ℚ
  vecStream : ℕ → ℕ → List ℚ
  scalarCount : ℕ
  vecCount : ℕ
  calls : List RngCall
  seeds : List (Option ℤ)

/-- uniform(low, high) with size absent: one scalar draw. -/
def Rng.uniformScalar (r : Rng) (low high : ℚ) : ℚ × Rng :=
  (r.scalarStream r.scalarCount,
   { r with scalarCount := r.scalarCount + 1,
            calls := r.calls ++ [RngCall.uniform low high none] })

/-- uniform(low, high, size): an ordered sequence of size draws. -/
def Rng.uniformVec (r : Rng) (low high : ℚ) (size : ℕ) : List ℚ × Rng :=
  (r.vecStream r.vecCount size,
   { r with vecCount := r.vecCount + 1,
            calls := r.calls ++ [RngCall.uniform low high (some size)] })

/-- normal(loc, scale) with size absent: one scalar draw. -/
def Rng.normalScalar (r : Rng) (loc scale : ℚ) : ℚ × Rng :=
  (r.scalarStream r.scalarCount,
   { r with scalarCount := r.scalarCount + 1,
            calls := r.calls ++ [RngCall.normal loc scale none] })

/-- normal(loc, scale, size): an ordered sequence of size draws. -/
def Rng.normalVec (r : Rng) (loc scale : ℚ) (size : ℕ) : List ℚ × Rng :=
  (r.vecStream r.vecCount size,
   { r with vecCount := r.vecCount + 1,
            calls := r.calls ++ [RngCall.normal loc scale (some size)] })

/-- A deterministic randomizer initializer: randomizer(seed) returns a
freshly seeded stream whose draw results are given by the two streams; the
seed it was invoked with is recorded in seeds (one entry per invocation). -/
def mkRng (s : ℕ → ℚ) (v : ℕ → ℕ → List ℚ) (seed : Option ℤ) : Rng :=
  { scalarStream := s, vecStream := v,
    scalarCount := 0, vecCount := 0, calls := [], seeds := [seed] }

/-- BanditsConfig: base configuration for all bandit environments. -/
structure BanditsConfig where
  num_bandits : ℕ := 10
  max_steps : ℕ := 1000
  seed : Option ℤ := none
  deriving DecidableEq

/-- FixedBanditsConfig: adds the winning and losing reward values. -/
structure FixedBanditsConfig extends BanditsConfig where
  hit_reward_value : ℤ := 10
  miss_reward_value : ℤ := -1
  deriving DecidableEq

/-- GaussianBanditsConfig: adds the mean-reward and sigma parameters. -/
structure GaussianBanditsConfig extends BanditsConfig where
  global_reward_mean : ℚ := 0
  global_reward_sigma : ℚ := 1
  reward_sigma : ℚ := 1
  deriving DecidableEq

/-- State of a bandit environment: the stored config, the step counter, the
owned randomizer, and the subclass-specific latent per-arm state. -/
structure Bandits (Cfg Latent : Type) where
  config : Cfg
  step_num : ℕ
  rng : Rng
  latent : Latent

/-- The num_bandits read accessor: returns config.num_bandits (base is the
projection of the subclass config onto the base configuration). -/
def Bandits.num_bandits (base : Cfg → BanditsConfig)
    (env : Bandits Cfg Latent) : ℕ :=
  (base env.config).num_bandits

/-- reset: sets step_num = 0. -/
def Bandits.reset (env : Bandits Cfg Latent) : Bandits Cfg Latent :=
  { env with step_num := 0 }

/-- Bandits.__init__: stores config, sets step_num to 0 and obtains the
seeded randomizer by invoking the initializer on config.seed.  The abstract
base has no latent state (Latent = Unit). -/
def Bandits.initBase (base : Cfg → BanditsConfig) (config : Cfg)
    (randomizer : Option ℤ → Rng) : Bandits Cfg Unit :=
  { config := config, step_num := 0, rng := randomizer (base config).seed,
    latent := () }

/-- step(action): calls the get_reward hook (the dynamically dispatched
abstract method, which may advance the randomizer and may fail with an
IndexError, modelled by none), increments step_num by 1, computes
done = step_num >= config.max_steps with the incremented counter, and
returns ([], reward, done) together with the updated environment state. -/
def Bandits.step (base : Cfg → BanditsConfig)
    (get_reward : Bandits Cfg Latent → ℤ → Option (ℚ × Bandits Cfg Latent))
    (env : Bandits Cfg Latent) (action : ℤ) :
    Option (List ℚ × ℚ × Bool × Bandits Cfg Latent) :=
  match get_reward env action with
  | none => none
  | some (reward, env1) =>
      let env2 := { env1 with step_num := env1.step_num + 1 }
      let done := decide ((base env2.config).max_steps ≤ env2.step_num)
      some ([], reward, done, env2)

/-- Iterated stepping: the trace of (observation, reward, done) triples of
successive step calls together with the final environment state; none as
soon as one call fails. -/
def Bandits.run (base : Cfg → BanditsConfig)
    (get_reward : Bandits Cfg Latent → ℤ → Option (ℚ × Bandits Cfg Latent))
    (env : Bandits Cfg Latent) :
    List ℤ → Option (List (List ℚ × ℚ × Bool) × Bandits Cfg Latent)
  | [] => some ([], env)
  | a :: as =>
      (Bandits.step base get_reward env a).bind (fun s =>
        (Bandits.run base get_reward s.2.2.2 as).map (fun pr =>
          ((s.1, s.2.1, s.2.2.1) :: pr.1, pr.2)))

/-- Python list indexing xs[i]: a negative index counts from the end; the
result is none exactly when Python raises IndexError. -/
def pyIndex (xs : List ℚ) (i : ℤ) : Option ℚ :=
  let j : ℤ := if i < 0 then (xs.length : ℤ) + i else i
  if 0 ≤ j then xs.get? j.toNat else none

/-- FixedValueBandits state: its latent per-arm state is the probabilities
list drawn at construction. -/
abbrev FixedValueBandits := Bandits FixedBanditsConfig (List ℚ)

/-- The probabilities attribute of a FixedValueBandits. -/
def FixedValueBandits.probabilities (env : FixedValueBandits) : List ℚ :=
  env.latent

/-- FixedValueBandits.__init__: runs the base constructor, then draws
probabilities = rng.uniform(0.001, 1.0, num_bandits). -/
def FixedValueBandits.init (config : FixedBanditsConfig)
    (randomizer : Option ℤ → Rng) : FixedValueBandits :=
  let b := Bandits.initBase FixedBanditsConfig.toBanditsConfig config randomizer
  let pr := Rng.uniformVec b.rng (1/1000) 1
    (Bandits.num_bandits FixedBanditsConfig.toBanditsConfig b)
  { config := b.config, step_num := b.step_num, rng := pr.2, latent := pr.1 }

/-- FixedValueBandits.get_reward: draws action_roll = rng.uniform(0.001, 1),
then returns hit_reward_value if action_roll >= probabilities[action], and
miss_reward_value otherwise.  The roll is drawn before the indexing, so the
randomizer advances even when the index is out of range. -/
def FixedValueBandits.get_reward (env : FixedValueBandits) (action : ℤ) :
    Option (ℚ × FixedValueBandits) :=
  let roll := Rng.uniformScalar env.rng (1/1000) 1
  match pyIndex (FixedValueBandits.probabilities env) action with
  | none => none
  | some p =>
      some ((if p ≤ roll.1 then (env.config.hit_reward_value : ℚ)
             else (env.config.miss_reward_value : ℚ)),
            { env with rng := roll.2 })

/-- FixedValueBandits.step: the inherited step with get_reward dispatched
to the fixed-value implementation. -/
def FixedValueBandits.step (env : FixedValueBandits) (action : ℤ) :
    Option (List ℚ × ℚ × Bool × FixedValueBandits) :=
  Bandits.step FixedBanditsConfig.toBanditsConfig
    FixedValueBandits.get_reward env action

/-- Iterated FixedValueBandits.step. -/
def FixedValueBandits.run (env : FixedValueBandits) (acts : List ℤ) :
    Option (List (List ℚ × ℚ × Bool) × FixedValueBandits) :=
  Bandits.run FixedBanditsConfig.toBanditsConfig
    FixedValueBandits.get_reward env acts

/-- GaussianValueBandits state: its latent per-arm state is the rewards
list (each arm's latent mean reward) drawn at construction. -/
abbrev GaussianValueBandits := Bandits GaussianBanditsConfig (List ℚ)

/-- The rewards attribute of a GaussianValueBandits. -/
def GaussianValueBandits.rewards (env : GaussianValueBandits) : List ℚ :=
  env.latent

/-- GaussianValueBandits.__init__: runs the base constructor, then draws
rewards = rng.normal(global_reward_mean, global_reward_sigma, num_bandits). -/
def GaussianValueBandits.init (config : GaussianBanditsConfig)
    (randomizer : Option ℤ → Rng) : GaussianValueBandits :=
  let b := Bandits.initBase GaussianBanditsConfig.toBanditsConfig config
    randomizer
  let pr := Rng.normalVec b.rng config.global_reward_mean
    config.global_reward_sigma
    (Bandits.num_bandits GaussianBanditsConfig.toBanditsConfig b)
  { config := b.config, step_num := b.step_num, rng := pr.2, latent := pr.1 }

/-- GaussianValueBandits.get_reward: reward = rng.normal(rewards[action],
reward_sigma), returned unchanged.  rewards[action] is evaluated to build
the loc argument before the draw, so an out-of-range index fails before
the randomizer advances. -/
def GaussianValueBandits.get_reward (env : GaussianValueBandits)
    (action : ℤ) : Option (ℚ × GaussianValueBandits) :=
  match pyIndex (GaussianValueBandits.rewards env) action with
  | none => none
  | some loc =>
      let d := Rng.normalScalar env.rng loc env.config.reward_sigma
      some (d.1, { env with rng := d.2 })

/-- GaussianValueBandits.step: the inherited step with get_reward
dispatched to the Gaussian implementation. -/
def GaussianValueBandits.step (env : GaussianValueBandits) (action : ℤ) :
    Option (List ℚ × ℚ × Bool × GaussianValueBandits) :=
  Bandits.step GaussianBanditsConfig.toBanditsConfig
    GaussianValueBandits.get_reward env action

/-- Iterated GaussianValueBandits.step. -/
def GaussianValueBandits.run (env : GaussianValueBandits) (acts : List ℤ) :
    Option (List (List ℚ × ℚ × Bool) × GaussianValueBandits) :=
  Bandits.run GaussianBanditsConfig.toBanditsConfig
    GaussianValueBandits.get_reward env acts

/-- The scalar draw stream of the reference stub randomizers: single-value
draws alternate 0.1 and 0.8, starting with 0.1. -/
def testScalarStream : ℕ → ℚ := fun k => if k % 2 = 0 then 1/10 else 8/10

/-- The vector draw stream of the reference stub randomizers: every
sequence draw returns 0.2 in each position. -/
def testVecStream : ℕ → ℕ → List ℚ := fun _ size => List.replicate size (2/10)

/-- The configuration of the fixed-value reference test. -/
def testFixedConfig : FixedBanditsConfig :=
  { num_bandits := 3, max_steps := 5, seed := some 0,
    hit_reward_value := 10, miss_reward_value := -1 }

/-- The fixed-value environment of the reference test. -/
def testFixedEnv : FixedValueBandits :=
  FixedValueBandits.init testFixedConfig (mkRng testScalarStream testVecStream)

/-- The configuration of the Gaussian reference test (with the negative
reward_sigma the test suite uses, passed through unvalidated). -/
def testGaussianConfig : GaussianBanditsConfig :=
  { num_bandits := 3, max_steps := 5, seed := some 0,
    global_reward_mean := 0, global_reward_sigma := 1, reward_sigma := -1 }

/-- The Gaussian environment of the reference test. -/
def testGaussianEnv : GaussianValueBandits :=
  GaussianValueBandits.init testGaussianConfig
    (mkRng testScalarStream testVecStream)

/-- A scalar stream that always rolls 0.8. -/
def highRollStream : ℕ → ℚ := fun _ => 8/10

/-- A fixed-value environment whose first roll is 0.8, with every arm
threshold equal to 0.2. -/
def highRollEnv : FixedValueBandits :=
  FixedValueBandits.init testFixedConfig (mkRng highRollStream testVecStream)

/-- A vector stream that sets every arm threshold to 0.001, the lower
bound of the uniform draw range. -/
def minThresholdVecStream : ℕ → ℕ → List ℚ :=
  fun _ size => List.replicate size (1/1000)

/-- A fixed-value environment whose arm thresholds are all 0.001. -/
def minThresholdEnv : FixedValueBandits :=
  FixedValueBandits.init testFixedConfig
    (mkRng testScalarStream minThresholdVecStream)

/-- The reference environment advanced to the episode end
(step_num = max_steps = 5). -/
def envDone : FixedValueBandits := { testFixedEnv with step_num := 5 }

/-- pyIndex succeeds exactly on the indices Python accepts:
-len ≤ i < len. -/
theorem pyIndex_isSome (xs : List ℚ) (i : ℤ) :
    (pyIndex xs i).isSome = true ↔
      (-(xs.length : ℤ) ≤ i ∧ i < (xs.length : ℤ)) := by
  unfold pyIndex
  by_cases hi : i < 0
  · simp only [if_pos hi]
    by_cases hj : (0 : ℤ) ≤ (xs.length : ℤ) + i
    · rw [if_pos hj]
      cases h : xs.get? ((xs.length : ℤ) + i).toNat with
      | none =>
          have := List.get?_eq_none.mp h
          simp
          omega
      | some q =>
          simp
          omega
    · rw [if_neg hj]
      simp
      omega
  · simp only [if_neg hi]
    rw [if_pos (by omega : (0 : ℤ) ≤ i)]
    cases h : xs.get? i.toNat with
    | none =>
        have := List.get?_eq_none.mp h
        simp
        omega
    | some q =>
        obtain ⟨hlt, -⟩ := List.get?_eq_some.mp h
        simp
        omega

/-- A negative in-range index denotes the same element as its
end-relative positive counterpart. -/
theorem pyIndex_neg (xs : List ℚ) (i : ℤ)
    (h1 : -(xs.length : ℤ) ≤ i) (h2 : i < 0) :
    pyIndex xs i = pyIndex xs ((xs.length : ℤ) + i) := by
  unfold pyIndex
  rw [if_pos h2, if_neg (by omega : ¬ (xs.length : ℤ) + i < 0)]

/-- The fixed-value get_reward hook only advances the randomizer cursor and
call log: step counter, config, probabilities and seed log are untouched. -/
theorem fixed_get_reward_state (e : FixedValueBandits) (a : ℤ) (r : ℚ)
    (e1 : FixedValueBandits)
    (h : FixedValueBandits.get_reward e a = some (r, e1)) :
    e1.step_num = e.step_num ∧ e1.config = e.config ∧
    e1.latent = e.latent ∧ e1.rng.seeds = e.rng.seeds := by
  unfold FixedValueBandits.get_reward at h
  cases hp : pyIndex (FixedValueBandits.probabilities e) a with
  | none => rw [hp] at h; exact absurd h (by simp)
  | some p =>
      rw [hp] at h
      simp only [Option.some.injEq, Prod.mk.injEq] at h
      obtain ⟨-, h2⟩ := h
      subst h2
      exact ⟨rfl, rfl, rfl, rfl⟩

/-- The Gaussian get_reward hook only advances the randomizer cursor and
call log: step counter, config, rewards and seed log are untouched. -/
theorem gaussian_get_reward_state (e : GaussianValueBandits) (a : ℤ) (r : ℚ)
    (e1 : GaussianValueBandits)
    (h : GaussianValueBandits.get_reward e a = some (r, e1)) :
    e1.step_num = e.step_num ∧ e1.config = e.config ∧
    e1.latent = e.latent ∧ e1.rng.seeds = e.rng.seeds := by
  unfold GaussianValueBandits.get_reward at h
  cases hp : pyIndex (GaussianValueBandits.rewards e) a with
  | none => rw [hp] at h; exact absurd h (by simp)
  | some loc =>
      rw [hp] at h
      simp only [Option.some.injEq, Prod.mk.injEq] at h
      obtain ⟨-, h2⟩ := h
      subst h2
      exact ⟨rfl, rfl, rfl, rfl⟩

/-- Closed form of step for hooks that do not touch the step counter or the
config (as both concrete get_reward implementations do). -/
theorem Bandits.step_eq {Cfg Latent : Type} (base : Cfg → BanditsConfig)
    (hook : Bandits Cfg Latent → ℤ → Option (ℚ × Bandits Cfg Latent))
    (hpres : ∀ e a r e1, hook e a = some (r, e1) →
      e1.step_num = e.step_num ∧ e1.config = e.config)
    (env : Bandits Cfg Latent) (a : ℤ) :
    Bandits.step base hook env a = (hook env a).map (fun re =>
      ([], re.1, decide ((base env.config).max_steps ≤ env.step_num + 1),
       { re.2 with step_num := env.step_num + 1 })) := by
  cases h : hook env a with
  | none => simp [Bandits.step, h]
  | some re =>
      obtain ⟨r, e1⟩ := re
      obtain ⟨h1, h2⟩ := hpres env a r e1 h
      simp [Bandits.step, h, h1, h2]

/-- The final step counter after a successful run counts the actions. -/
theorem Bandits.run_step_num {Cfg Latent : Type}
    (base : Cfg → BanditsConfig)
    (hook : Bandits Cfg Latent → ℤ → Option (ℚ × Bandits Cfg Latent))
    (hpres : ∀ e a r e1, hook e a = some (r, e1) →
      e1.step_num = e.step_num) :
    ∀ (acts : List ℤ) (env : Bandits Cfg Latent)
      (out : List (List ℚ × ℚ × Bool) × Bandits Cfg Latent),
      Bandits.run base hook env acts = some out →
      out.2.step_num = env.step_num + acts.length := by
  intro acts
  induction acts with
  | nil =>
      intro env out h
      simp only [Bandits.run, Option.some.injEq] at h
      rw [← h]
      simp
  | cons a as ih =>
      intro env out h
      simp only [Bandits.run, Option.bind_eq_some, Option.map_eq_some'] at h
      obtain ⟨s, hstep, pr, hrun, h⟩ := h
      have hq : s.2.2.2.step_num = env.step_num + 1 := by
        cases hhook : hook env a with
        | none => simp [Bandits.step, hhook] at hstep
        | some re =>
            obtain ⟨r0, e1⟩ := re
            simp only [Bandits.step, hhook, Option.some.injEq] at hstep
            rw [← hstep]
            simpa using hpres env a r0 e1 hhook
      have hfin := ih s.2.2.2 pr hrun
      rw [← h]
      simp only [List.length_cons]
      omega

/-- Any projection of the environment state that the get_reward hook
preserves and that ignores the step counter is invariant across a run. -/
theorem Bandits.run_invariant {Cfg Latent α : Type}
    (f : Bandits Cfg Latent → α) (base : Cfg → BanditsConfig)
    (hook : Bandits Cfg Latent → ℤ → Option (ℚ × Bandits Cfg Latent))
    (hf : ∀ e a r e1, hook e a = some (r, e1) → f e1 = f e)
    (hfs : ∀ (e : Bandits Cfg Latent) (n : ℕ),
      f { e with step_num := n } = f e) :
    ∀ (acts : List ℤ) (env : Bandits Cfg Latent)
      (out : List (List ℚ × ℚ × Bool) × Bandits Cfg Latent),
      Bandits.run base hook env acts = some out → f out.2 = f env := by
  intro acts
  induction acts with
  | nil =>
      intro env out h
      simp only [Bandits.run, Option.some.injEq] at h
      rw [← h]
  | cons a as ih =>
      intro env out h
      simp only [Bandits.run, Option.bind_eq_some, Option.map_eq_some'] at h
      obtain ⟨s, hstep, pr, hrun, h⟩ := h
      have hs : f s.2.2.2 = f env := by
        cases hhook : hook env a with
        | none => simp [Bandits.step, hhook] at hstep
        | some re =>
            obtain ⟨r0, e1⟩ := re
            simp only [Bandits.step, hhook, Option.some.injEq] at hstep
            rw [← hstep]
            show f { e1 with step_num := e1.step_num + 1 } = f env
            rw [hfs e1 (e1.step_num + 1)]
            exact hf env a r0 e1 hhook
      rw [← h]
      show f pr.2 = f env
      rw [ih s.2.2.2 pr hrun]
      exact hs

/-- C2: with config (num_bandits = 3, hit_reward_value = 10,
miss_reward_value = -1) and a stub randomizer whose 3-element initial draw
is [0.2, 0.2, 0.2] and whose next scalar draws are 0.1 then 0.8, the
probabilities equal [0.2, 0.2, 0.2], the first get_reward(0) returns -1
(the miss reward, since 0.1 < 0.2) and the second get_reward(1) returns 10
(the hit reward, since 0.8 ≥ 0.2). -/
theorem fixed_value_reference_behaviour :
    FixedValueBandits.probabilities testFixedEnv = [2/10, 2/10, 2/10] ∧
    (FixedValueBandits.get_reward testFixedEnv 0).map Prod.fst =
      some (-1) ∧
    ((FixedValueBandits.get_reward testFixedEnv 0).bind
      (fun re => FixedValueBandits.get_reward re.2 1)).map Prod.fst =
      some 10 := by
  refine ⟨rfl, ?_, ?_⟩ <;>
    norm_num [FixedValueBandits.get_reward, FixedValueBandits.probabilities,
      testFixedEnv, FixedValueBandits.init, Bandits.initBase,
      Bandits.num_bandits, mkRng, Rng.uniformScalar, Rng.uniformVec,
      testScalarStream, testVecStream, testFixedConfig, pyIndex,
      List.replicate]

/-- C1 counterexample: in highRollEnv the fresh roll is 0.8, which is ≥
probabilities[0] = 0.2, and get_reward(0) returns the HIT reward 10 — not
the miss reward -1 the claim predicts for a roll ≥ the threshold. -/
theorem fixed_roll_ge_threshold_hits_cex :
    FixedValueBandits.probabilities highRollEnv = [2/10, 2/10, 2/10] ∧
    (2/10 : ℚ) ≤ 8/10 ∧
    highRollEnv.config.hit_reward_value = 10 ∧
    highRollEnv.config.miss_reward_value = -1 ∧
    (FixedValueBandits.get_reward highRollEnv 0).map Prod.fst = some 10 ∧
    ¬ (FixedValueBandits.get_reward highRollEnv 0).map Prod.fst =
        some (-1) := by
  refine ⟨rfl, by norm_num, rfl, rfl, ?_, ?_⟩ <;>
    norm_num [FixedValueBandits.get_reward, FixedValueBandits.probabilities,
      highRollEnv, FixedValueBandits.init, Bandits.initBase,
      Bandits.num_bandits, mkRng, Rng.uniformScalar, Rng.uniformVec,
      highRollStream, testVecStream, testFixedConfig, pyIndex,
      List.replicate]

/-- C1 (amended): for every fixed-value environment and every action whose
index is accepted, get_reward draws one fresh scalar uniform value with
arguments (0.001, 1) — advancing the scalar cursor by one and logging
exactly that call — and returns hit_reward_value if the roll is ≥
probabilities[action], miss_reward_value otherwise. -/
theorem fixed_get_reward_spec (env : FixedValueBandits) (a : ℤ) (p : ℚ)
    (h : pyIndex (FixedValueBandits.probabilities env) a = some p) :
    FixedValueBandits.get_reward env a =
      some ((if p ≤ env.rng.scalarStream env.rng.scalarCount
             then (env.config.hit_reward_value : ℚ)
             else (env.config.miss_reward_value : ℚ)),
        { env with rng := (Rng.uniformScalar env.rng (1/1000) 1).2 }) ∧
    (Rng.uniformScalar env.rng (1/1000) 1).2.calls =
      env.rng.calls ++ [RngCall.uniform (1/1000) 1 none] ∧
    (Rng.uniformScalar env.rng (1/1000) 1).2.scalarCount =
      env.rng.scalarCount + 1 := by
  refine ⟨?_, rfl, rfl⟩
  simp only [FixedValueBandits.get_reward, Rng.uniformScalar, h]

/-- Witness for the amended C1: the first reference draw (roll 0.1 against
threshold 0.2) realises the miss branch. -/
theorem fixed_get_reward_spec_witness :
    pyIndex (FixedValueBandits.probabilities testFixedEnv) 0 =
      some (2/10) ∧
    (FixedValueBandits.get_reward testFixedEnv 0).map Prod.fst =
      some (-1) := by
  have hp : pyIndex (FixedValueBandits.probabilities testFixedEnv) 0 =
      some (2/10) := by
    norm_num [pyIndex, FixedValueBandits.probabilities, testFixedEnv,
      FixedValueBandits.init, Bandits.initBase, Bandits.num_bandits, mkRng,
      Rng.uniformVec, testVecStream, testFixedConfig, List.replicate]
  have h := (fixed_get_reward_spec testFixedEnv 0 (2/10) hp).1
  refine ⟨hp, ?_⟩
  rw [h]
  norm_num [testFixedEnv, FixedValueBandits.init, Bandits.initBase,
    Bandits.num_bandits, mkRng, Rng.uniformVec, testScalarStream,
    testFixedConfig]

/-- C9: an arm whose latent threshold is 0.001, the lower bound of the
draw range, can never miss: every roll the randomizer can produce in
[0.001, 1.0) is ≥ 0.001, so get_reward returns the hit reward. -/
theorem fixed_min_threshold_always_hits (env : FixedValueBandits) (a : ℤ)
    (h : pyIndex (FixedValueBandits.probabilities env) a = some (1/1000))
    (hroll : 1/1000 ≤ env.rng.scalarStream env.rng.scalarCount) :
    (FixedValueBandits.get_reward env a).map Prod.fst =
      some ((env.config.hit_reward_value : ℚ)) := by
  simp only [FixedValueBandits.get_reward, Rng.uniformScalar, h,
    Option.map_some']
  rw [if_pos hroll]

/-- Witness for C9: arm 0 of minThresholdEnv has threshold 0.001 and the
roll 0.1 yields the hit reward 10. -/
theorem fixed_min_threshold_always_hits_witness :
    pyIndex (FixedValueBandits.probabilities minThresholdEnv) 0 =
      some (1/1000) ∧
    (1 : ℚ)/1000 ≤
      minThresholdEnv.rng.scalarStream minThresholdEnv.rng.scalarCount ∧
    (FixedValueBandits.get_reward minThresholdEnv 0).map Prod.fst =
      some 10 := by
  have h1 : pyIndex (FixedValueBandits.probabilities minThresholdEnv) 0 =
      some (1/1000) := by
    norm_num [pyIndex, FixedValueBandits.probabilities, minThresholdEnv,
      FixedValueBandits.init, Bandits.initBase, Bandits.num_bandits, mkRng,
      Rng.uniformVec, minThresholdVecStream, testFixedConfig,
      List.replicate]
  have h2 : (1 : ℚ)/1000 ≤
      minThresholdEnv.rng.scalarStream minThresholdEnv.rng.scalarCount := by
    norm_num [minThresholdEnv, FixedValueBandits.init, Bandits.initBase,
      Bandits.num_bandits, mkRng, Rng.uniformVec, testScalarStream,
      testFixedConfig]
  have h3 := fixed_min_threshold_always_hits minThresholdEnv 0 h1 h2
  refine ⟨h1, h2, ?_⟩
  rw [h3]
  norm_num [minThresholdEnv, FixedValueBandits.init, Bandits.initBase,
    mkRng, testFixedConfig]

/-- C5: reset sets step_num to 0 and changes nothing else — the config,
the latent per-arm parameters and the randomizer state are exactly as
before the call. -/
theorem reset_only_zeroes_step_num {Cfg Latent : Type}
    (env : Bandits Cfg Latent) :
    (Bandits.reset env).step_num = 0 ∧
    (Bandits.reset env).config = env.config ∧
    (Bandits.reset env).latent = env.latent ∧
    (Bandits.reset env).rng = env.rng :=
  ⟨rfl, rfl, rfl, rfl⟩

/-- C6: equal configurations and the same deterministic randomizer
initializer give identical latent parameters and identical step traces
(hence identical reward sequences) for the same action sequence, in both
concrete variants. -/
theorem same_seed_determinism (c1 c2 : FixedBanditsConfig)
    (g1 g2 : GaussianBanditsConfig) (rz : Option ℤ → Rng) (acts : List ℤ)
    (hc : c1 = c2) (hg : g1 = g2) :
    FixedValueBandits.probabilities (FixedValueBandits.init c1 rz) =
      FixedValueBandits.probabilities (FixedValueBandits.init c2 rz) ∧
    FixedValueBandits.run (FixedValueBandits.init c1 rz) acts =
      FixedValueBandits.run (FixedValueBandits.init c2 rz) acts ∧
    GaussianValueBandits.rewards (GaussianValueBandits.init g1 rz) =
      GaussianValueBandits.rewards (GaussianValueBandits.init g2 rz) ∧
    GaussianValueBandits.run (GaussianValueBandits.init g1 rz) acts =
      GaussianValueBandits.run (GaussianValueBandits.init g2 rz) acts := by
  subst hc; subst hg
  exact ⟨rfl, rfl, rfl, rfl⟩

/-- get_reward succeeds exactly when the index lookup does (fixed-value
variant; the roll drawn before the lookup does not affect success). -/
theorem fixed_get_reward_isSome (e : FixedValueBandits) (a : ℤ) :
    (FixedValueBandits.get_reward e a).isSome =
      (pyIndex (FixedValueBandits.probabilities e) a).isSome := by
  unfold FixedValueBandits.get_reward
  cases h : pyIndex (FixedValueBandits.probabilities e) a <;> simp [h]

/-- get_reward succeeds exactly when the index lookup does (Gaussian
variant). -/
theorem gaussian_get_reward_isSome (e : GaussianValueBandits) (a : ℤ) :
    (GaussianValueBandits.get_reward e a).isSome =
      (pyIndex (GaussianValueBandits.rewards e) a).isSome := by
  unfold GaussianValueBandits.get_reward
  cases h : pyIndex (GaussianValueBandits.rewards e) a <;> simp [h]

/-- C3: step returns ([], the reward produced by the get_reward hook, done)
with done = (new step_num ≥ config.max_steps), and increments step_num by
exactly 1; construction starts step_num at 0, so after n successful step
calls step_num = n. -/
theorem step_triple_and_counter (Cfg Latent : Type)
    (base : Cfg → BanditsConfig)
    (hook : Bandits Cfg Latent → ℤ → Option (ℚ × Bandits Cfg Latent))
    (hpres : ∀ e a r e1, hook e a = some (r, e1) →
      e1.step_num = e.step_num ∧ e1.config = e.config)
    (env : Bandits Cfg Latent) (a : ℤ) :
    (Bandits.step base hook env a = (hook env a).map (fun re =>
      ([], re.1, decide ((base env.config).max_steps ≤ env.step_num + 1),
       { re.2 with step_num := env.step_num + 1 }))) ∧
    (∀ acts out, Bandits.run base hook env acts = some out →
      out.2.step_num = env.step_num + acts.length) ∧
    (∀ (Cfg2 : Type) (base2 : Cfg2 → BanditsConfig) (c : Cfg2)
      (rz : Option ℤ → Rng), (Bandits.initBase base2 c rz).step_num = 0) ∧
    (∀ (c : FixedBanditsConfig) (rz : Option ℤ → Rng),
      (FixedValueBandits.init c rz).step_num = 0) ∧
    (∀ (g : GaussianBanditsConfig) (rz : Option ℤ → Rng),
      (GaussianValueBandits.init g rz).step_num = 0) :=
  ⟨Bandits.step_eq base hook hpres env a,
   fun acts out h => Bandits.run_step_num base hook
     (fun e a2 r e1 he => (hpres e a2 r e1 he).1) acts env out h,
   fun _ _ _ _ => rfl, fun _ _ => rfl, fun _ _ => rfl⟩

/-- Witness for C3 on the fixed-value reference environment. -/
theorem step_triple_and_counter_witness :
    (FixedValueBandits.step testFixedEnv 0).map
      (fun out => (out.1, out.2.1, out.2.2.1, out.2.2.2.step_num)) =
      some ([], -1, false, 1) ∧
    testFixedEnv.step_num = 0 := by
  have h := step_triple_and_counter FixedBanditsConfig (List ℚ)
    FixedBanditsConfig.toBanditsConfig FixedValueBandits.get_reward
    (fun e a r e1 he => ⟨(fixed_get_reward_state e a r e1 he).1,
      (fixed_get_reward_state e a r e1 he).2.1⟩) testFixedEnv 0
  constructor
  · simp only [FixedValueBandits.step]
    rw [h.1]
    norm_num [FixedValueBandits.get_reward, FixedValueBandits.probabilities,
      testFixedEnv, FixedValueBandits.init, Bandits.initBase,
      Bandits.num_bandits, mkRng, Rng.uniformScalar, Rng.uniformVec,
      testScalarStream, testVecStream, testFixedConfig, pyIndex,
      List.replicate]
  · exact h.2.2.2.1 testFixedConfig (mkRng testScalarStream testVecStream)

/-- C4: step is never clamped: whenever the get_reward hook succeeds the
call succeeds — also on calls made after done became true — the step
counter strictly increases, the returned done flag is true exactly when
step_num ≥ max_steps after the increment, and once step_num has reached
max_steps the flag is true on that call. -/
theorem step_unclamped (Cfg Latent : Type) (base : Cfg → BanditsConfig)
    (hook : Bandits Cfg Latent → ℤ → Option (ℚ × Bandits Cfg Latent))
    (hpres : ∀ e a r e1, hook e a = some (r, e1) →
      e1.step_num = e.step_num ∧ e1.config = e.config)
    (env : Bandits Cfg Latent) (a : ℤ) (r : ℚ)
    (e1 : Bandits Cfg Latent) (hsucc : hook env a = some (r, e1)) :
    Bandits.step base hook env a =
      some ([], r, decide ((base env.config).max_steps ≤ env.step_num + 1),
        { e1 with step_num := env.step_num + 1 }) ∧
    ({ e1 with step_num := env.step_num + 1 } :
      Bandits Cfg Latent).step_num = env.step_num + 1 ∧
    env.step_num <
      ({ e1 with step_num := env.step_num + 1 } :
        Bandits Cfg Latent).step_num ∧
    (decide ((base env.config).max_steps ≤ env.step_num + 1) = true ↔
      (base env.config).max_steps ≤ env.step_num + 1) ∧
    ((base env.config).max_steps ≤ env.step_num →
      decide ((base env.config).max_steps ≤ env.step_num + 1) = true) := by
  refine ⟨?_, rfl, Nat.lt_succ_self env.step_num, by simp, ?_⟩
  · rw [Bandits.step_eq base hook hpres env a, hsucc]
    rfl
  · intro hle
    simp only [decide_eq_true_eq]
    omega

/-- Witness for C4: stepping the reference environment at the episode end
(step_num = max_steps = 5) still succeeds, the counter moves to 6, and the
done flag is (and stays) true. -/
theorem step_unclamped_witness :
    (FixedValueBandits.step envDone 0).map
      (fun out => (out.1, out.2.1, out.2.2.1, out.2.2.2.step_num)) =
      some ([], -1, true, 6) := by
  have hsucc : FixedValueBandits.get_reward envDone 0 =
      some (-1, { envDone with
        rng := (Rng.uniformScalar envDone.rng (1/1000) 1).2 }) := by
    norm_num [FixedValueBandits.get_reward, FixedValueBandits.probabilities,
      envDone, testFixedEnv, FixedValueBandits.init, Bandits.initBase,
      Bandits.num_bandits, mkRng, Rng.uniformScalar, Rng.uniformVec,
      testScalarStream, testVecStream, testFixedConfig, pyIndex,
      List.replicate]
  have h := step_unclamped FixedBanditsConfig (List ℚ)
    FixedBanditsConfig.toBanditsConfig FixedValueBandits.get_reward
    (fun e a r e1 he => ⟨(fixed_get_reward_state e a r e1 he).1,
      (fixed_get_reward_state e a r e1 he).2.1⟩) envDone 0 (-1) _ hsucc
  have hd := h.2.2.2.2 (by
    norm_num [envDone, testFixedEnv, FixedValueBandits.init,
      Bandits.initBase, testFixedConfig, mkRng, Rng.uniformVec,
      Bandits.num_bandits])
  simp only [FixedValueBandits.step]
  rw [h.1, hd]
  norm_num [envDone, testFixedEnv, FixedValueBandits.init, Bandits.initBase,
    testFixedConfig, mkRng, Rng.uniformVec, Bandits.num_bandits]

/-- C7: Gaussian construction performs exactly one normal draw of
num_bandits values with mean global_reward_mean and standard deviation
global_reward_sigma, storing the drawn sequence as rewards; each
get_reward(action) on an accepted index performs one fresh scalar normal
draw with mean rewards[action] and standard deviation reward_sigma and
returns that draw unchanged. -/
theorem gaussian_draw_spec (config : GaussianBanditsConfig) (s : ℕ → ℚ)
    (v : ℕ → ℕ → List ℚ) (env : GaussianValueBandits) (a : ℤ) (loc : ℚ)
    (h : pyIndex (GaussianValueBandits.rewards env) a = some loc) :
    (GaussianValueBandits.init config (mkRng s v)).rng.calls =
      [RngCall.normal config.global_reward_mean config.global_reward_sigma
        (some config.num_bandits)] ∧
    GaussianValueBandits.rewards
      (GaussianValueBandits.init config (mkRng s v)) =
      v 0 config.num_bandits ∧
    GaussianValueBandits.get_reward env a =
      some (env.rng.scalarStream env.rng.scalarCount,
        { env with
            rng :=
              (Rng.normalScalar env.rng loc env.config.reward_sigma).2 }) ∧
    (Rng.normalScalar env.rng loc env.config.reward_sigma).2.calls =
      env.rng.calls ++ [RngCall.normal loc env.config.reward_sigma none] ∧
    (Rng.normalScalar env.rng loc env.config.reward_sigma).2.scalarCount =
      env.rng.scalarCount + 1 := by
  refine ⟨rfl, rfl, ?_, rfl, rfl⟩
  simp only [GaussianValueBandits.get_reward, Rng.normalScalar, h]

/-- Witness for C7 on the Gaussian reference environment: rewards are
[0.2, 0.2, 0.2], get_reward(0) returns the stub draw 0.1 unchanged, and
the call log records normal(0, 1, 3) then normal(0.2, -1, None). -/
theorem gaussian_draw_spec_witness :
    GaussianValueBandits.rewards testGaussianEnv = [2/10, 2/10, 2/10] ∧
    pyIndex (GaussianValueBandits.rewards testGaussianEnv) 0 =
      some (2/10) ∧
    (GaussianValueBandits.get_reward testGaussianEnv 0).map Prod.fst =
      some (1/10) ∧
    (GaussianValueBandits.get_reward testGaussianEnv 0).map
      (fun re => re.2.rng.calls) =
      some [RngCall.normal 0 1 (some 3),
        RngCall.normal (2/10) (-1) none] := by
  have hp : pyIndex (GaussianValueBandits.rewards testGaussianEnv) 0 =
      some (2/10) := by
    norm_num [pyIndex, GaussianValueBandits.rewards, testGaussianEnv,
      GaussianValueBandits.init, Bandits.initBase, Bandits.num_bandits,
      mkRng, Rng.normalVec, testVecStream, testGaussianConfig,
      List.replicate]
  have h := gaussian_draw_spec testGaussianConfig testScalarStream
    testVecStream testGaussianEnv 0 (2/10) hp
  refine ⟨rfl, hp, ?_, ?_⟩ <;> rw [h.2.2.1] <;>
    norm_num [testGaussianEnv, GaussianValueBandits.init, Bandits.initBase,
      Bandits.num_bandits, mkRng, Rng.normalScalar, Rng.normalVec,
      testScalarStream, testVecStream, testGaussianConfig, List.replicate]

/-- C8: construction stores the config unchanged, starts step_num at 0,
and invokes the randomizer initializer exactly once, passing config.seed
(the seed log of the obtained stream is exactly [config.seed]);
num_bandits read after construction returns config.num_bandits; and no
later operation — stepping or reset — ever re-seeds the stream. -/
theorem construction_seeds_once (cf : FixedBanditsConfig)
    (cg : GaussianBanditsConfig) (s : ℕ → ℚ) (v : ℕ → ℕ → List ℚ)
    (acts : List ℤ) :
    (FixedValueBandits.init cf (mkRng s v)).config = cf ∧
    (FixedValueBandits.init cf (mkRng s v)).step_num = 0 ∧
    (FixedValueBandits.init cf (mkRng s v)).rng.seeds = [cf.seed] ∧
    Bandits.num_bandits FixedBanditsConfig.toBanditsConfig
      (FixedValueBandits.init cf (mkRng s v)) = cf.num_bandits ∧
    (∀ out, FixedValueBandits.run (FixedValueBandits.init cf (mkRng s v))
      acts = some out → out.2.rng.seeds = [cf.seed]) ∧
    (Bandits.reset (FixedValueBandits.init cf (mkRng s v))).rng.seeds =
      [cf.seed] ∧
    (GaussianValueBandits.init cg (mkRng s v)).config = cg ∧
    (GaussianValueBandits.init cg (mkRng s v)).step_num = 0 ∧
    (GaussianValueBandits.init cg (mkRng s v)).rng.seeds = [cg.seed] ∧
    Bandits.num_bandits GaussianBanditsConfig.toBanditsConfig
      (GaussianValueBandits.init cg (mkRng s v)) = cg.num_bandits ∧
    (∀ out, GaussianValueBandits.run
      (GaussianValueBandits.init cg (mkRng s v)) acts = some out →
      out.2.rng.seeds = [cg.seed]) ∧
    (Bandits.reset (GaussianValueBandits.init cg (mkRng s v))).rng.seeds =
      [cg.seed] := by
  refine ⟨rfl, rfl, rfl, rfl, ?_, rfl, rfl, rfl, rfl, rfl, ?_, rfl⟩
  · intro out h
    have hrun := Bandits.run_invariant (fun e => e.rng.seeds)
      FixedBanditsConfig.toBanditsConfig FixedValueBandits.get_reward
      (fun e a r e1 he => (fixed_get_reward_state e a r e1 he).2.2.2)
      (fun e n => rfl) acts (FixedValueBandits.init cf (mkRng s v)) out h
    exact hrun
  · intro out h
    have hrun := Bandits.run_invariant (fun e => e.rng.seeds)
      GaussianBanditsConfig.toBanditsConfig GaussianValueBandits.get_reward
      (fun e a r e1 he => (gaussian_get_reward_state e a r e1 he).2.2.2)
      (fun e n => rfl) acts (GaussianValueBandits.init cg (mkRng s v)) out h
    exact hrun

/-- Witness for C8 on the reference environment and stub randomizer. -/
theorem construction_seeds_once_witness :
    testFixedEnv.rng.seeds = [some 0] ∧
    (Bandits.reset testFixedEnv).rng.seeds = [some 0] ∧
    (FixedValueBandits.run testFixedEnv []).map
      (fun out => out.2.rng.seeds) = some [some 0] := by
  have h := construction_seeds_once testFixedConfig testGaussianConfig
    testScalarStream testVecStream []
  exact ⟨h.2.2.1, h.2.2.2.2.2.1,
    by rw [show FixedValueBandits.run testFixedEnv [] =
        some ([], testFixedEnv) from rfl, Option.map_some']
       exact congrArg some (h.2.2.2.2.1 ([], testFixedEnv) rfl)⟩

/-- C10: get_reward accepts negative action indices with Python list
semantics: when the latent array has length num_bandits, an action in
[-num_bandits, 0) behaves exactly like num_bandits + action, and the index
lookup fails exactly when action ≥ num_bandits or action < -num_bandits —
in both concrete variants. -/
theorem get_reward_negative_indexing (ef : FixedValueBandits)
    (eg : GaussianValueBandits) (a : ℤ)
    (hf : (FixedValueBandits.probabilities ef).length =
      ef.config.num_bandits)
    (hg : (GaussianValueBandits.rewards eg).length =
      eg.config.num_bandits) :
    ((FixedValueBandits.get_reward ef a).isSome = true ↔
      (-(ef.config.num_bandits : ℤ) ≤ a ∧
        a < (ef.config.num_bandits : ℤ))) ∧
    (-(ef.config.num_bandits : ℤ) ≤ a → a < 0 →
      FixedValueBandits.get_reward ef a =
        FixedValueBandits.get_reward ef
          ((ef.config.num_bandits : ℤ) + a)) ∧
    ((GaussianValueBandits.get_reward eg a).isSome = true ↔
      (-(eg.config.num_bandits : ℤ) ≤ a ∧
        a < (eg.config.num_bandits : ℤ))) ∧
    (-(eg.config.num_bandits : ℤ) ≤ a → a < 0 →
      GaussianValueBandits.get_reward eg a =
        GaussianValueBandits.get_reward eg
          ((eg.config.num_bandits : ℤ) + a)) := by
  refine ⟨?_, ?_, ?_, ?_⟩
  · have h1 := pyIndex_isSome (FixedValueBandits.probabilities ef) a
    rw [hf] at h1
    rw [fixed_get_reward_isSome]
    exact h1
  · intro h1 h2
    rw [← hf] at h1
    have hpi := pyIndex_neg (FixedValueBandits.probabilities ef) a h1 h2
    unfold FixedValueBandits.get_reward
    rw [hpi, hf]
  · have h1 := pyIndex_isSome (GaussianValueBandits.rewards eg) a
    rw [hg] at h1
    rw [gaussian_get_reward_isSome]
    exact h1
  · intro h1 h2
    rw [← hg] at h1
    have hpi := pyIndex_neg (GaussianValueBandits.rewards eg) a h1 h2
    unfold GaussianValueBandits.get_reward
    rw [hpi, hg]

/-- Witness for C10: action -1 on the 3-arm reference environments
succeeds and coincides with action 2. -/
theorem get_reward_negative_indexing_witness :
    (FixedValueBandits.get_reward testFixedEnv (-1)).isSome = true ∧
    FixedValueBandits.get_reward testFixedEnv (-1) =
      FixedValueBandits.get_reward testFixedEnv 2 ∧
    (GaussianValueBandits.get_reward testGaussianEnv (-1)).isSome = true ∧
    GaussianValueBandits.get_reward testGaussianEnv (-1) =
      GaussianValueBandits.get_reward testGaussianEnv 2 := by
  have hf : (FixedValueBandits.probabilities testFixedEnv).length =
      testFixedEnv.config.num_bandits := rfl
  have hg : (GaussianValueBandits.rewards testGaussianEnv).length =
      testGaussianEnv.config.num_bandits := rfl
  have h := get_reward_negative_indexing testFixedEnv testGaussianEnv (-1)
    hf hg
  have hb : ((testFixedEnv.config.num_bandits : ℤ)) + (-1) = 2 := rfl
  have hb2 : ((testGaussianEnv.config.num_bandits : ℤ)) + (-1) = 2 := rfl
  refine ⟨h.1.mpr (by constructor <;> decide), ?_, ?_, ?_⟩
  · have h2 := h.2.1 (by decide) (by decide)
    rw [hb] at h2
    exact h2
  · exact h.2.2.1.mpr (by constructor <;> decide)
  · have h2 := h.2.2.2 (by decide) (by decide)
    rw [hb2] at h2
    exact h2

/-- Witness for C6 at the reference configuration and stub randomizer. -/
theorem same_seed_determinism_witness :
    FixedValueBandits.probabilities testFixedEnv =
      FixedValueBandits.probabilities testFixedEnv ∧
    FixedValueBandits.run testFixedEnv [0, 1] =
      FixedValueBandits.run testFixedEnv [0, 1] := by
  have h := same_seed_determinism testFixedConfig testFixedConfig
    testGaussianConfig testGaussianConfig
    (mkRng testScalarStream testVecStream) [0, 1] rfl rfl
  exact ⟨h.1, h.2.1⟩

